import Mathlib

/-
Shallow embedding of the bookmark-manager core (bookmark repository,
duplicate detection and merge, undo buffer) of the forethought-toolbox
extension.

Modelling conventions:
- A JavaScript runtime object of shape BookmarkNode is modelled with every
  field an Option: none stands for an absent key or an undefined value.
  The same shape serves as a Partial update object, where none means the
  key is absent; at every call site modelled here, updates never carry a
  key explicitly set to undefined, so absent and undefined coincide.
- Object spread {...base, ...updates} is field-wise: a field present in
  updates wins, otherwise the base field is kept.
- Timestamps (new Date().toISOString()) are passed in as a String
  parameter; crypto.randomUUID() is passed in as a String parameter.
- Milliseconds (Date.now()) are passed in as an Int parameter.
- The do/while scan of deleteBookmarkNode is modelled with explicit fuel
  counting loop iterations; a result of none means the loop has not
  terminated within the given fuel.
- Persistence is modelled by returning the list that is written to the
  store; an operation that performs no write returns the input list.
-/

inductive NodeType where
  | bookmark
  | folder
deriving DecidableEq, Repr

structure BookmarkNode where
  id : Option String
  type : Option NodeType
  title : Option String
  url : Option String
  parentId : Option String
  categoryId : Option String
  tags : Option (List String)
  createdAt : Option String
  lastAccessed : Option String
  accessCount : Option Nat
  description : Option String
deriving DecidableEq, Repr

structure BookmarkCategory where
  id : Option String
  name : Option String
  color : Option String
  icon : Option String
deriving DecidableEq, Repr

/-- The two chrome.storage.local keys owned by the repository. -/
structure LocalStorage where
  bookmarks : List BookmarkNode
  bookmark_categories : List BookmarkCategory
deriving DecidableEq, Repr

/-- JavaScript object spread: result of spreading updates over base. -/
def mergeNode (base updates : BookmarkNode) : BookmarkNode where
  id := updates.id <|> base.id
  type := updates.type <|> base.type
  title := updates.title <|> base.title
  url := updates.url <|> base.url
  parentId := updates.parentId <|> base.parentId
  categoryId := updates.categoryId <|> base.categoryId
  tags := updates.tags <|> base.tags
  createdAt := updates.createdAt <|> base.createdAt
  lastAccessed := updates.lastAccessed <|> base.lastAccessed
  accessCount := updates.accessCount <|> base.accessCount
  description := updates.description <|> base.description

/-- BookmarkService.addBookmarkOrFolder: freshId stands for
crypto.randomUUID() and now for new Date().toISOString(). Returns the
materialized node and the list written to storage. -/
def addBookmarkOrFolder (freshId now : String) (node : BookmarkNode)
    (bookmarks : List BookmarkNode) : BookmarkNode × List BookmarkNode :=
  let newNode : BookmarkNode :=
    { node with
      id := some freshId
      createdAt := some now
      lastAccessed := if node.type = some NodeType.bookmark then some now else none
      accessCount := if node.type = some NodeType.bookmark then some 0 else none }
  (newNode, bookmarks ++ [newNode])

/-- bookmarks.findIndex(b => b.id === id); returns the list length when
no element matches, so that found is equivalent to index < length. -/
def findIndexById (id : String) (bookmarks : List BookmarkNode) : Nat :=
  bookmarks.findIdx (fun b => decide (b.id = some id))

/-- The node built in the found branch of updateBookmarkNode: the spread
of updates over the existing node, with lastAccessed then overwritten
according to the type of the existing node. -/
def updatedNodeAt (now : String) (old updates : BookmarkNode) : BookmarkNode :=
  { mergeNode old updates with
    lastAccessed := if old.type = some NodeType.bookmark then some now else none }

/-- The node built in the not-found branch of updateBookmarkNode: the
updates object with id set to the requested id and lastAccessed
overwritten according to the type carried by the updates object. -/
def restoredNodeOf (now id : String) (updates : BookmarkNode) : BookmarkNode :=
  { updates with
    id := some id
    lastAccessed := if updates.type = some NodeType.bookmark then some now else none }

/-- BookmarkService.updateBookmarkNode. Returns the node the function
returns and the list written to storage. -/
def updateBookmarkNode (now id : String) (updates : BookmarkNode)
    (bookmarks : List BookmarkNode) : Option BookmarkNode × List BookmarkNode :=
  let index := findIndexById id bookmarks
  if h : index < bookmarks.length then
    let updatedNode := updatedNodeAt now bookmarks[index] updates
    (some updatedNode, bookmarks.set index updatedNode)
  else
    let restoredNode := restoredNodeOf now id updates
    (some restoredNode, bookmarks ++ [restoredNode])

/-- The condition node.parentId && toDelete.has(node.parentId): an empty
string parentId is falsy in JavaScript, so it never triggers. -/
def truthyParentIn (toDelete : List (Option String)) (n : BookmarkNode) : Bool :=
  match n.parentId with
  | some p => !(p == "") && toDelete.contains (some p)
  | none => false

/-- Set.add on the toDelete set (insertion order, no duplicates). -/
def addId (s : List (Option String)) (i : Option String) : List (Option String) :=
  if s.contains i then s else s ++ [i]

/-- One pass of the for..of loop over bookmarks: the evolving toDelete set
together with the found flag of this pass. Note that found is set to true
whenever the condition holds, even when node.id is already in the set. -/
def scanPass (bookmarks : List BookmarkNode) (s : List (Option String)) :
    List (Option String) × Bool :=
  bookmarks.foldl
    (fun acc n => if truthyParentIn acc.1 n then (addId acc.1 n.id, true) else acc)
    (s, false)

/-- The do/while loop, with fuel bounding the number of passes; none means
the loop has not terminated within fuel passes. -/
def scanLoop : Nat → List BookmarkNode → List (Option String) → Option (List (Option String))
  | 0, _, _ => none
  | fuel + 1, bookmarks, s =>
    let r := scanPass bookmarks s
    if r.2 then scanLoop fuel bookmarks r.1 else some r.1

/-- BookmarkService.deleteBookmarkNode. Returns none when the do/while
loop does not terminate within fuel passes; otherwise the returned
boolean and the stored list after the call (unchanged when no write is
performed). -/
def deleteBookmarkNode (fuel : Nat) (id : String) (bookmarks : List BookmarkNode) :
    Option (Bool × List BookmarkNode) :=
  (scanLoop fuel bookmarks [some id]).map (fun toDelete =>
    let updatedBookmarks := bookmarks.filter (fun b => !(toDelete.contains b.id))
    if updatedBookmarks.length = bookmarks.length then (false, bookmarks)
    else (true, updatedBookmarks))

/-- BookmarkService.deleteCategory: filters the category list only; the
bookmarks key is never read or written. -/
def deleteCategory (id : String) (st : LocalStorage) : LocalStorage :=
  { st with
    bookmark_categories :=
      st.bookmark_categories.filter (fun cat => !(decide (cat.id = some id))) }

/-- The grouping key bm.url || <empty string> used by findDuplicates. -/
def urlKey (n : BookmarkNode) : String := n.url.getD ""

/-- One step of building the url Map: JavaScript Map keeps keys in
insertion order and the per-key array of ids grows by push. -/
def addToUrlMap (m : List (String × List (Option String))) (k : String)
    (i : Option String) : List (String × List (Option String)) :=
  match m with
  | [] => [(k, [i])]
  | (k2, ids) :: rest =>
    if k2 = k then (k2, ids ++ [i]) :: rest else (k2, ids) :: addToUrlMap rest k i

/-- The url Map of findDuplicates, as an insertion-ordered association list. -/
def buildUrlMap (bookmarks : List BookmarkNode) : List (String × List (Option String)) :=
  bookmarks.foldl (fun m n => addToUrlMap m (urlKey n) n.id) []

/-- The duplicate groups reported by findDuplicates: Map entries whose id
array has more than one element. -/
def findDuplicateGroups (bookmarks : List BookmarkNode) :
    List (String × List (Option String)) :=
  (buildUrlMap bookmarks).filter (fun g => decide (1 < g.2.length))

/-- Array.from(new Set(l)): de-duplication keeping first occurrences. -/
def jsSetDedup (l : List String) : List String :=
  l.foldl (fun acc x => if acc.contains x then acc else acc ++ [x]) []

/-- group.ids.map(find by id).filter(present) in handleMerge. -/
def resolveGroup (safeBookmarks : List BookmarkNode) (ids : List (Option String)) :
    List BookmarkNode :=
  ids.filterMap (fun i => safeBookmarks.find? (fun b => decide (b.id = i)))

/-- Stable insertion step for sorting descriptions by length, longest
first; equal lengths keep original order, as JavaScript sort does. -/
def insertByLenDesc (x : String) : List String → List String
  | [] => [x]
  | y :: ys => if y.length ≤ x.length then x :: y :: ys else y :: insertByLenDesc x ys

def sortByLenDesc : List String → List String
  | [] => []
  | x :: xs => insertByLenDesc x (sortByLenDesc xs)

/-- The per-group body of handleMerge: resolves the group members, skips
groups with fewer than two resolvable members, keeps the node selected by
toKeepId and merges tags, categoryId and description according to the
three flags. Returns the merged node passed to update, none when the
group is skipped or the kept node cannot be resolved. -/
def handleMergeGroup (mergeTags mergeCategories mergeDescriptions : Bool)
    (safeBookmarks : List BookmarkNode) (ids : List (Option String))
    (toKeepId : Option String) : Option BookmarkNode :=
  let bookmarksInGroup := resolveGroup safeBookmarks ids
  if bookmarksInGroup.length < 2 then none
  else
    match bookmarksInGroup.find? (fun b => decide (b.id = toKeepId)) with
    | none => none
    | some kept =>
      let m1 := if mergeTags then
          { kept with
            tags := some (jsSetDedup (bookmarksInGroup.flatMap (fun b => b.tags.getD []))) }
        else kept
      let m2 := if mergeCategories then
          match (bookmarksInGroup.map (fun b => b.categoryId)).find?
              (fun c => match c with | some s => !(s == "") | none => false) with
          | some c => { m1 with categoryId := c }
          | none => m1
        else m1
      let m3 := if mergeDescriptions then
          let d := (sortByLenDesc (bookmarksInGroup.map (fun b => b.description.getD ""))).headD ""
          if d = "" then m2 else { m2 with description := some d }
        else m2
      some m3

/-- Math.ceil of an integer millisecond difference divided by 1000.
Integer division in Lean rounds toward negative infinity for a positive
divisor, so the ceiling is the negated floor of the negation. -/
def jsCeilDiv1000 (d : Int) : Int := -((-d) / 1000)

/-- The persisted single-delete undo record, keys lastDeletedBookmark and
undoExpire of chrome.storage.local. -/
structure UndoPersist where
  lastDeletedBookmark : Option BookmarkNode
  undoExpire : Option Int
deriving DecidableEq, Repr

/-- The React state involved in the single-delete undo buffer. -/
structure UndoState where
  lastDeleted : Option BookmarkNode
  undoExpire : Option Int
  undoSeconds : Int
deriving DecidableEq, Repr

/-- One tick of the 200ms countdown interval. The interval is armed only
when lastDeleted is set, the pointer is not hovering and undoExpire is
truthy; a tick recomputes the seconds left and, at zero or below, clears
the state and removes the persisted record. -/
def countdownTick (now : Int) (hovered : Bool) (st : UndoState) (per : UndoPersist) :
    UndoState × UndoPersist :=
  match st.lastDeleted, st.undoExpire with
  | some _, some expire =>
    if hovered = true ∨ expire = 0 then (st, per)
    else
      let secondsLeft := jsCeilDiv1000 (expire - now)
      let st1 := { st with undoSeconds := secondsLeft }
      if secondsLeft ≤ 0 then
        ({ st1 with lastDeleted := none, undoExpire := none },
         { lastDeletedBookmark := none, undoExpire := none })
      else (st1, per)
  | _, _ => (st, per)

/-- Convenience constructor for concrete nodes used in examples: all
fields not given are absent. -/
def mkNode (i : Option String) (ty : Option NodeType) (pid u la : Option String)
    (tg : Option (List String)) : BookmarkNode :=
  { id := i, type := ty, title := none, url := u, parentId := pid,
    categoryId := none, tags := tg, createdAt := none, lastAccessed := la,
    accessCount := none, description := none }

/-- A root folder with id f. -/
def exFolderF : BookmarkNode := mkNode (some "f") (some NodeType.folder) none none none none

/-- A bookmark that is a child of folder f. -/
def exChildC : BookmarkNode :=
  mkNode (some "c") (some NodeType.bookmark) (some "f") (some "https://c.example") none none

/-- A two-node forest: folder f with one bookmark child c. -/
def exForestFC : List BookmarkNode := [exFolderF, exChildC]

/-- A bookmark whose parentId references a node id that is not stored. -/
def exDangling : BookmarkNode :=
  mkNode (some "a") (some NodeType.bookmark) (some "ghost") none none none

/-- A full bookmark snapshot as buffered by the undo path. -/
def exSnapB1 : BookmarkNode :=
  { mkNode (some "b1") (some NodeType.bookmark) none (some "https://ex.com")
      (some "2024-01-01T00:00:00.000Z") (some ["x"]) with
    title := some "Ex"
    createdAt := some "2024-01-01T00:00:00.000Z"
    accessCount := some 3 }

/-- A node without a url field. -/
def exNoUrl : BookmarkNode := mkNode (some "a") (some NodeType.folder) none none none none

/-- A node whose url is present and is the empty string. -/
def exEmptyUrl : BookmarkNode :=
  mkNode (some "b") (some NodeType.bookmark) none (some "") none none

/-- The on-mount rehydrate effect: a truthy persisted record whose expiry
is still in the future is restored into state; one whose expiry has
passed is removed from storage without touching state. -/
def rehydrate (now : Int) (per : UndoPersist) (st : UndoState) :
    UndoState × UndoPersist :=
  match per.lastDeletedBookmark, per.undoExpire with
  | some node, some expire =>
    if expire = 0 then (st, per)
    else if now < expire then
      ({ st with
          lastDeleted := some node
          undoExpire := some expire
          undoSeconds := jsCeilDiv1000 (expire - now) }, per)
    else (st, { lastDeletedBookmark := none, undoExpire := none })
  | _, _ => (st, per)

/-! Helper lemmas shared by several developments below. -/

theorem findIndexById_eq_length (id : String) (bs : List BookmarkNode)
    (h : ∀ n ∈ bs, n.id ≠ some id) : findIndexById id bs = bs.length := by
  induction bs with
  | nil => rfl
  | cons x xs ih =>
    have hx : decide (x.id = some id) = false :=
      decide_eq_false (h x (List.mem_cons_self x xs))
    have ihx : findIndexById id xs = xs.length :=
      ih (fun n hn => h n (List.mem_cons_of_mem x hn))
    simp [findIndexById, List.findIdx_cons, hx] at ihx ⊢
    exact ihx

theorem findIndexById_concat (id : String) (bs : List BookmarkNode) (y : BookmarkNode)
    (h : ∀ n ∈ bs, n.id ≠ some id) (hy : y.id = some id) :
    findIndexById id (bs ++ [y]) = bs.length := by
  induction bs with
  | nil => simp [findIndexById, List.findIdx_cons, hy]
  | cons x xs ih =>
    have hx : decide (x.id = some id) = false :=
      decide_eq_false (h x (List.mem_cons_self x xs))
    have ihx := ih (fun n hn => h n (List.mem_cons_of_mem x hn))
    simp [findIndexById, List.findIdx_cons, hx] at ihx ⊢
    exact ihx

theorem update_found_eq (now id : String) (updates : BookmarkNode)
    (bs : List BookmarkNode) (h : findIndexById id bs < bs.length) :
    updateBookmarkNode now id updates bs =
      (some (updatedNodeAt now (bs.get ⟨findIndexById id bs, h⟩) updates),
       bs.set (findIndexById id bs)
         (updatedNodeAt now (bs.get ⟨findIndexById id bs, h⟩) updates)) := by
  unfold updateBookmarkNode
  rw [dif_pos h]
  simp [List.get_eq_getElem]

theorem update_notFound_eq (now id : String) (updates : BookmarkNode)
    (bs : List BookmarkNode) (h : ¬ findIndexById id bs < bs.length) :
    updateBookmarkNode now id updates bs =
      (some (restoredNodeOf now id updates), bs ++ [restoredNodeOf now id updates]) := by
  unfold updateBookmarkNode
  rw [dif_neg h]

theorem jsCeilDiv1000_nonpos (d : Int) (hd : d ≤ 0) : jsCeilDiv1000 d ≤ 0 := by
  unfold jsCeilDiv1000
  have h0 : (0 : Int) ≤ (-d) / 1000 := Int.ediv_nonneg (by omega) (by norm_num)
  omega

/-- C9: for every storage state, deleting a category changes only the
category list; the bookmarks list is unchanged, and a bookmark whose
categoryId references the deleted id is still stored with that same,
now dangling, categoryId. -/
theorem C9_deleteCategory_no_cascade (st : LocalStorage) (id : String)
    (b : BookmarkNode) (hb : b ∈ st.bookmarks) (hc : b.categoryId = some id) :
    (deleteCategory id st).bookmarks = st.bookmarks ∧
    b ∈ (deleteCategory id st).bookmarks ∧ b.categoryId = some id :=
  ⟨rfl, hb, hc⟩

theorem C9_witness :
    (deleteCategory "cat1"
        { bookmarks := [{ mkNode (some "b1") (some NodeType.bookmark) none none none none
                          with categoryId := some "cat1" }],
          bookmark_categories := [{ id := some "cat1", name := some "Work",
                                    color := some "#fff", icon := some "star" }] }).bookmarks =
      [{ mkNode (some "b1") (some NodeType.bookmark) none none none none
         with categoryId := some "cat1" }] ∧
    ({ mkNode (some "b1") (some NodeType.bookmark) none none none none
       with categoryId := some "cat1" } : BookmarkNode) ∈
      (deleteCategory "cat1"
        { bookmarks := [{ mkNode (some "b1") (some NodeType.bookmark) none none none none
                          with categoryId := some "cat1" }],
          bookmark_categories := [{ id := some "cat1", name := some "Work",
                                    color := some "#fff", icon := some "star" }] }).bookmarks ∧
    ({ mkNode (some "b1") (some NodeType.bookmark) none none none none
       with categoryId := some "cat1" } : BookmarkNode).categoryId = some "cat1" :=
  C9_deleteCategory_no_cascade _ "cat1" _ (by decide) (by decide)

/-- C10: whenever update finds a stored node of type folder, the node it
writes back and returns has lastAccessed set to none, erasing any value
the folder previously carried, for every possible updates object. -/
theorem C10_update_folder_clears_lastAccessed (now id : String)
    (updates : BookmarkNode) (bs : List BookmarkNode)
    (h : findIndexById id bs < bs.length)
    (hty : (bs.get ⟨findIndexById id bs, h⟩).type = some NodeType.folder) :
    ∃ u, (updateBookmarkNode now id updates bs).1 = some u ∧
      u.lastAccessed = none ∧
      (updateBookmarkNode now id updates bs).2 = bs.set (findIndexById id bs) u := by
  rw [update_found_eq now id updates bs h]
  have hty2 : bs[findIndexById id bs].type = some NodeType.folder := by
    simpa [List.get_eq_getElem] using hty
  exact ⟨_, rfl, by simp [updatedNodeAt, hty2], rfl⟩

theorem C10_witness :
    (findIndexById "f1"
        [{ mkNode (some "f1") (some NodeType.folder) none none (some "2024-01-01") none
           with title := some "Old" }] <
      [{ mkNode (some "f1") (some NodeType.folder) none none (some "2024-01-01") none
         with title := some "Old" }].length) ∧
    ∃ u, (updateBookmarkNode "2024-06-01" "f1"
        { mkNode none none none none none none with title := some "New" }
        [{ mkNode (some "f1") (some NodeType.folder) none none (some "2024-01-01") none
           with title := some "Old" }]).1 = some u ∧
      u.lastAccessed = none ∧
      (updateBookmarkNode "2024-06-01" "f1"
        { mkNode none none none none none none with title := some "New" }
        [{ mkNode (some "f1") (some NodeType.folder) none none (some "2024-01-01") none
           with title := some "Old" }]).2 =
        [{ mkNode (some "f1") (some NodeType.folder) none none (some "2024-01-01") none
           with title := some "Old" }].set
          (findIndexById "f1"
            [{ mkNode (some "f1") (some NodeType.folder) none none (some "2024-01-01") none
               with title := some "Old" }]) u :=
  ⟨by decide, C10_update_folder_clears_lastAccessed "2024-06-01" "f1" _ _ (by decide) (by decide)⟩

theorem update_concat_found (now id : String) (updates y : BookmarkNode)
    (bs0 : List BookmarkNode) (hfresh : ∀ n ∈ bs0, n.id ≠ some id)
    (hy : y.id = some id) :
    updateBookmarkNode now id updates (bs0 ++ [y]) =
      (some (updatedNodeAt now y updates),
       (bs0 ++ [y]).set bs0.length (updatedNodeAt now y updates)) := by
  have hidx := findIndexById_concat id bs0 y hfresh hy
  have hlen : findIndexById id (bs0 ++ [y]) < (bs0 ++ [y]).length := by
    rw [hidx]; simp
  rw [update_found_eq now id updates _ hlen]
  have hget : (bs0 ++ [y]).get ⟨findIndexById id (bs0 ++ [y]), hlen⟩ = y := by
    simp [List.get_eq_getElem, hidx]
  rw [hget, hidx]

/-- C4: updating a stored node of type bookmark refreshes its
lastAccessed to the current time, whatever fields the partial update
carries; and in the add-then-update scenario, with the update strictly
after the add and a partial update not carrying createdAt, the returned
node has lastAccessed strictly greater than its createdAt. -/
theorem C4_update_refreshes_lastAccessed (now t1 t2 freshId id : String)
    (updates draft : BookmarkNode) (bs bs0 : List BookmarkNode)
    (h : findIndexById id bs < bs.length)
    (hty : (bs.get ⟨findIndexById id bs, h⟩).type = some NodeType.bookmark)
    (hdraft : draft.type = some NodeType.bookmark)
    (hfresh : ∀ n ∈ bs0, n.id ≠ some freshId)
    (hupd : updates.createdAt = none)
    (hlt : t1 < t2) :
    (∃ u, (updateBookmarkNode now id updates bs).1 = some u ∧
       u.lastAccessed = some now) ∧
    (∃ u, (updateBookmarkNode t2 freshId updates
        ((addBookmarkOrFolder freshId t1 draft bs0).2)).1 = some u ∧
       u.lastAccessed = some t2 ∧ u.createdAt = some t1 ∧ t1 < t2) := by
  constructor
  · rw [update_found_eq now id updates bs h]
    have hty2 : bs[findIndexById id bs].type = some NodeType.bookmark := by
      simpa [List.get_eq_getElem] using hty
    exact ⟨_, rfl, by simp [updatedNodeAt, hty2]⟩
  · have h2 : (addBookmarkOrFolder freshId t1 draft bs0).2 =
        bs0 ++ [(addBookmarkOrFolder freshId t1 draft bs0).1] := rfl
    rw [h2, update_concat_found t2 freshId updates _ bs0 hfresh rfl]
    refine ⟨_, rfl, ?_, ?_, hlt⟩
    · simp [updatedNodeAt, addBookmarkOrFolder, hdraft]
    · simp [updatedNodeAt, mergeNode, addBookmarkOrFolder, hupd]

theorem C4_witness :
    (findIndexById "b1" [exSnapB1] < [exSnapB1].length) ∧
    (([exSnapB1].get ⟨findIndexById "b1" [exSnapB1],
        (by decide : findIndexById "b1" [exSnapB1] < [exSnapB1].length)⟩).type =
      some NodeType.bookmark) ∧
    ((∃ u, (updateBookmarkNode "2024-06-02T00:00:00.000Z" "b1"
        { mkNode none none none none none none with title := some "Ex2" }
        [exSnapB1]).1 = some u ∧
       u.lastAccessed = some "2024-06-02T00:00:00.000Z") ∧
    (∃ u, (updateBookmarkNode "2024-06-02T00:00:00.000Z" "u1"
        { mkNode none none none none none none with title := some "Ex2" }
        ((addBookmarkOrFolder "u1" "2024-06-01T00:00:00.000Z"
          (mkNode none (some NodeType.bookmark) none (some "https://ex.com") none none)
          []).2)).1 = some u ∧
       u.lastAccessed = some "2024-06-02T00:00:00.000Z" ∧
       u.createdAt = some "2024-06-01T00:00:00.000Z" ∧
       "2024-06-01T00:00:00.000Z" < "2024-06-02T00:00:00.000Z")) :=
  ⟨by decide, by decide,
   C4_update_refreshes_lastAccessed "2024-06-02T00:00:00.000Z"
     "2024-06-01T00:00:00.000Z" "2024-06-02T00:00:00.000Z" "u1" "b1"
     _ _ [exSnapB1] [] (by decide) (by decide) (by decide)
     (by intro n hn; cases hn) (by decide)
     (by rw [String.lt_iff_toList_lt]; decide)⟩

/-- C2 counterexample: restoring a previously deleted bookmark snapshot
via update on an empty store does not reproduce the snapshot
field-for-field; the stored node has its lastAccessed overwritten with
the current time instead of the buffered value. -/
theorem C2_counterexample_lastAccessed_not_restored :
    (updateBookmarkNode "2024-06-01T00:00:00.000Z" "b1" exSnapB1 []).2 ≠ [exSnapB1] ∧
    (updateBookmarkNode "2024-06-01T00:00:00.000Z" "b1" exSnapB1 []).2 =
      [{ exSnapB1 with lastAccessed := some "2024-06-01T00:00:00.000Z" }] := by
  constructor
  · decide
  · decide

/-- C2 amended: update on an id not present in the store appends a node
equal to the snapshot in every field except lastAccessed, which is set
to the current time for a bookmark-type snapshot and cleared for any
other snapshot; the id field is set to the requested id. -/
theorem C2_amended_update_restores_except_lastAccessed (now id : String)
    (snap : BookmarkNode) (bs : List BookmarkNode)
    (h : ∀ n ∈ bs, n.id ≠ some id) :
    ∃ r, updateBookmarkNode now id snap bs = (some r, bs ++ [r]) ∧
      r.title = snap.title ∧ r.type = snap.type ∧ r.url = snap.url ∧
      r.parentId = snap.parentId ∧ r.categoryId = snap.categoryId ∧
      r.tags = snap.tags ∧ r.createdAt = snap.createdAt ∧
      r.accessCount = snap.accessCount ∧ r.description = snap.description ∧
      r.id = some id ∧
      r.lastAccessed = (if snap.type = some NodeType.bookmark then some now else none) := by
  have hnf : ¬ findIndexById id bs < bs.length := by
    rw [findIndexById_eq_length id bs h]
    omega
  rw [update_notFound_eq now id snap bs hnf]
  exact ⟨_, rfl, rfl, rfl, rfl, rfl, rfl, rfl, rfl, rfl, rfl, rfl, rfl⟩

theorem C2_witness :
    ∃ r, updateBookmarkNode "2024-06-01T00:00:00.000Z" "b1" exSnapB1 [] = (some r, [] ++ [r]) ∧
      r.title = exSnapB1.title ∧ r.type = exSnapB1.type ∧ r.url = exSnapB1.url ∧
      r.parentId = exSnapB1.parentId ∧ r.categoryId = exSnapB1.categoryId ∧
      r.tags = exSnapB1.tags ∧ r.createdAt = exSnapB1.createdAt ∧
      r.accessCount = exSnapB1.accessCount ∧ r.description = exSnapB1.description ∧
      r.id = some "b1" ∧
      r.lastAccessed =
        (if exSnapB1.type = some NodeType.bookmark
         then some "2024-06-01T00:00:00.000Z" else none) :=
  C2_amended_update_restores_except_lastAccessed "2024-06-01T00:00:00.000Z" "b1"
    exSnapB1 [] (by intro n hn; cases hn)

/-- C5: add materializes the draft with a fresh id, createdAt set to the
current time, lastAccessed and accessCount initialized for bookmarks and
absent for folders, appends the materialized node to the stored list
leaving every pre-existing node unchanged, and returns it. -/
theorem C5_add_materializes_and_appends (freshId now : String)
    (draft : BookmarkNode) (bs : List BookmarkNode)
    (hfresh : ∀ n ∈ bs, n.id ≠ some freshId)
    (_hdraft : draft.id = none ∧ draft.createdAt = none ∧
      draft.lastAccessed = none ∧ draft.accessCount = none) :
    ∃ r, addBookmarkOrFolder freshId now draft bs = (r, bs ++ [r]) ∧
      r.id = some freshId ∧ (∀ n ∈ bs, n.id ≠ r.id) ∧
      r.createdAt = some now ∧
      (draft.type = some NodeType.bookmark →
        r.lastAccessed = some now ∧ r.accessCount = some 0) ∧
      (draft.type = some NodeType.folder →
        r.lastAccessed = none ∧ r.accessCount = none) ∧
      r.type = draft.type ∧ r.title = draft.title ∧ r.url = draft.url ∧
      r.parentId = draft.parentId ∧ r.tags = draft.tags := by
  refine ⟨_, rfl, rfl, ?_, rfl, ?_, ?_, rfl, rfl, rfl, rfl, rfl⟩
  · simpa using hfresh
  · intro hb
    constructor <;> simp [hb]
  · intro hf
    constructor <;> simp [hf]

theorem C5_witness :
    ∃ r, addBookmarkOrFolder "u1" "2024-06-01T00:00:00.000Z"
        ({ mkNode none (some NodeType.bookmark) none (some "https://ex.com") none none
           with title := some "Ex" }) [exFolderF] = (r, [exFolderF] ++ [r]) ∧
      r.id = some "u1" ∧ (∀ n ∈ [exFolderF], n.id ≠ r.id) ∧
      r.createdAt = some "2024-06-01T00:00:00.000Z" ∧
      (({ mkNode none (some NodeType.bookmark) none (some "https://ex.com") none none
          with title := some "Ex" } : BookmarkNode).type = some NodeType.bookmark →
        r.lastAccessed = some "2024-06-01T00:00:00.000Z" ∧ r.accessCount = some 0) ∧
      (({ mkNode none (some NodeType.bookmark) none (some "https://ex.com") none none
          with title := some "Ex" } : BookmarkNode).type = some NodeType.folder →
        r.lastAccessed = none ∧ r.accessCount = none) ∧
      r.type = some NodeType.bookmark ∧ r.title = some "Ex" ∧
      r.url = some "https://ex.com" ∧ r.parentId = none ∧ r.tags = none :=
  C5_add_materializes_and_appends "u1" "2024-06-01T00:00:00.000Z" _ [exFolderF]
    (by decide) (by decide)

/-- C8: a countdown tick at or after the expiry timestamp clears the
pending node and expiry from state and removes the persisted undo
record; and the on-mount rehydrate of a persisted record whose expiry
has passed removes the record without restoring anything. -/
theorem C8_undo_expiry_clears (now e1 e2 : Int) (st : UndoState)
    (per per2 : UndoPersist) (n m : BookmarkNode)
    (h1 : st.lastDeleted = some n) (h2 : st.undoExpire = some e1)
    (h3 : e1 ≠ 0) (h4 : e1 ≤ now)
    (h5 : per2.lastDeletedBookmark = some m) (h6 : per2.undoExpire = some e2)
    (h7 : e2 ≠ 0) (h8 : e2 ≤ now) :
    ((countdownTick now false st per).1.lastDeleted = none ∧
     (countdownTick now false st per).1.undoExpire = none ∧
     (countdownTick now false st per).2 =
       { lastDeletedBookmark := none, undoExpire := none }) ∧
    rehydrate now per2 st = (st, { lastDeletedBookmark := none, undoExpire := none }) := by
  have hsec : jsCeilDiv1000 (e1 - now) ≤ 0 := jsCeilDiv1000_nonpos _ (by omega)
  constructor
  · simp only [countdownTick, h1, h2]
    rw [if_neg (by simp [h3]), if_pos hsec]
    exact ⟨rfl, rfl, rfl⟩
  · simp only [rehydrate, h5, h6]
    rw [if_neg h7, if_neg (by omega)]

theorem C8_witness :
    ((countdownTick 10000 false
        { lastDeleted := some exSnapB1, undoExpire := some 5000, undoSeconds := 5 }
        { lastDeletedBookmark := some exSnapB1, undoExpire := some 5000 }).1.lastDeleted =
          none ∧
     (countdownTick 10000 false
        { lastDeleted := some exSnapB1, undoExpire := some 5000, undoSeconds := 5 }
        { lastDeletedBookmark := some exSnapB1, undoExpire := some 5000 }).1.undoExpire =
          none ∧
     (countdownTick 10000 false
        { lastDeleted := some exSnapB1, undoExpire := some 5000, undoSeconds := 5 }
        { lastDeletedBookmark := some exSnapB1, undoExpire := some 5000 }).2 =
       { lastDeletedBookmark := none, undoExpire := none }) ∧
    rehydrate 10000 { lastDeletedBookmark := some exSnapB1, undoExpire := some 5000 }
        { lastDeleted := some exSnapB1, undoExpire := some 5000, undoSeconds := 5 } =
      ({ lastDeleted := some exSnapB1, undoExpire := some 5000, undoSeconds := 5 },
       { lastDeletedBookmark := none, undoExpire := none }) :=
  C8_undo_expiry_clears 10000 5000 5000 _ _ _ exSnapB1 exSnapB1
    rfl rfl (by decide) (by decide) rfl rfl (by decide) (by decide)

theorem addId_mem (s : List (Option String)) (i x : Option String) (hx : x ∈ s) :
    x ∈ addId s i := by
  unfold addId
  split
  · exact hx
  · exact List.mem_append_left _ hx

theorem scanPass_forest_fc (s : List (Option String)) (h : some "f" ∈ s) :
    scanPass exForestFC s = (addId s (some "c"), true) := by
  simp [scanPass, exForestFC, exFolderF, exChildC, mkNode, truthyParentIn, h]

theorem scanLoop_forest_fc_diverges :
    ∀ fuel (s : List (Option String)), some "f" ∈ s →
      scanLoop fuel exForestFC s = none := by
  intro fuel
  induction fuel with
  | zero => intro s _; rfl
  | succ k ih =>
    intro s hs
    have hp := scanPass_forest_fc s hs
    simp only [scanLoop, hp]
    exact ih _ (addId_mem s (some "c") (some "f") hs)

/-- C1: the claim states that delete on a folder removes it and all its
descendants. The code contradicts its own intent (the comment above the
loop reads: recursively delete all children if it is a folder): the
do/while loop sets found to true whenever any node has its parentId in
the toDelete set, even when nothing new is added, so on any target with
at least one child the loop never terminates. On the two-node forest of
folder f and child c, delete of f does not finish within any number of
passes, so nothing is ever removed or returned. -/
theorem C1_delete_folder_with_child_diverges :
    ∀ fuel, deleteBookmarkNode fuel "f" exForestFC = none := by
  intro fuel
  unfold deleteBookmarkNode
  rw [scanLoop_forest_fc_diverges fuel [some "f"] (List.mem_singleton_self _)]
  rfl

theorem scanPass_no_hits (s : List (Option String)) (bs : List BookmarkNode)
    (h : ∀ n ∈ bs, truthyParentIn s n = false) : scanPass bs s = (s, false) := by
  unfold scanPass
  induction bs with
  | nil => rfl
  | cons x xs ih =>
    have hx := h x (List.mem_cons_self x xs)
    simp only [List.foldl_cons, hx, if_neg (by simp [hx] : ¬ truthyParentIn s x = true)]
    exact ih (fun n hn => h n (List.mem_cons_of_mem x hn))

theorem scanPass_dangling (s : List (Option String)) (h : some "ghost" ∈ s) :
    scanPass [exDangling] s = (addId s (some "a"), true) := by
  simp [scanPass, exDangling, mkNode, truthyParentIn, h]

theorem scanLoop_dangling_diverges :
    ∀ fuel (s : List (Option String)), some "ghost" ∈ s →
      scanLoop fuel [exDangling] s = none := by
  intro fuel
  induction fuel with
  | zero => intro s _; rfl
  | succ k ih =>
    intro s hs
    have hp := scanPass_dangling s hs
    simp only [scanLoop, hp]
    exact ih _ (addId_mem s (some "a") (some "ghost") hs)

theorem delete_dangling_diverges (fuel : Nat) :
    deleteBookmarkNode fuel "ghost" [exDangling] = none := by
  unfold deleteBookmarkNode
  rw [scanLoop_dangling_diverges fuel [some "ghost"] (List.mem_singleton_self _)]
  rfl

/-- C3 counterexample: on the store holding a single node whose parentId
dangles to the absent id ghost, delete of ghost neither returns false
nor leaves the loop at all: every pass finds the dangling child again,
so the do/while loop never terminates within any number of passes
(proved for all fuel above; stated here at 100 passes to keep the
statement closed). -/
theorem C3_counterexample_delete_missing_id_diverges :
    exDangling.id ≠ some "ghost" ∧
    deleteBookmarkNode 100 "ghost" [exDangling] = none :=
  ⟨by decide, delete_dangling_diverges 100⟩

/-- C3 amended: delete of an id that neither identifies a stored node
nor occurs as the truthy (non-empty) parentId of any stored node
terminates after one pass, returns false and performs no write; and
whenever a delete call terminates, it returns true exactly when the
written list is shorter than the stored one. -/
theorem C3_amended_delete_missing_id_returns_false (fuel fuel2 : Nat)
    (id id2 : String) (bs bs2 : List BookmarkNode) (b : Bool)
    (l : List BookmarkNode)
    (hfuel : 0 < fuel)
    (hid : ∀ n ∈ bs, n.id ≠ some id)
    (hchild : ∀ n ∈ bs, n.parentId = some id → id = "")
    (hrun : deleteBookmarkNode fuel2 id2 bs2 = some (b, l)) :
    deleteBookmarkNode fuel id bs = some (false, bs) ∧
    (b = true ↔ l.length ≠ bs2.length) := by
  constructor
  · obtain ⟨k, rfl⟩ : ∃ k, fuel = k + 1 := ⟨fuel - 1, by omega⟩
    have hnone : ∀ n ∈ bs, truthyParentIn [some id] n = false := by
      intro n hn
      unfold truthyParentIn
      cases hp : n.parentId with
      | none => rfl
      | some p =>
        by_cases hpe : p = ""
        · simp [hpe]
        · have hnc : ¬ some p ∈ [some id] := by
            intro hmem
            have hpid : p = id := by simpa using hmem
            have hempty : id = "" := hchild n hn (hpid ▸ hp)
            exact hpe (hpid.trans hempty)
          simp only [List.mem_singleton, Option.some.injEq] at hnc
          simp [hnc]
    have hpass := scanPass_no_hits [some id] bs hnone
    have hfilter : bs.filter (fun x => !([some id].contains x.id)) = bs := by
      rw [List.filter_eq_self]
      intro a ha
      simpa using hid a ha
    unfold deleteBookmarkNode
    simp only [scanLoop, hpass, if_neg (by simp : ¬ (false = true)),
      Option.map_some']
    rw [hfilter]
    simp
  · unfold deleteBookmarkNode at hrun
    cases hscan : scanLoop fuel2 bs2 [some id2] with
    | none => rw [hscan] at hrun; cases hrun
    | some td =>
      rw [hscan] at hrun
      have hrun2 :
          (if (bs2.filter (fun x => !(td.contains x.id))).length = bs2.length
           then ((false : Bool), bs2)
           else (true, bs2.filter (fun x => !(td.contains x.id)))) = (b, l) := by
        simpa using hrun
      by_cases hlen :
          (bs2.filter (fun x => !(td.contains x.id))).length = bs2.length
      · rw [if_pos hlen] at hrun2
        rw [Prod.mk.injEq] at hrun2
        obtain ⟨hb2, hl2⟩ := hrun2
        subst hb2
        subst hl2
        simp
      · rw [if_neg hlen] at hrun2
        rw [Prod.mk.injEq] at hrun2
        obtain ⟨hb2, hl2⟩ := hrun2
        subst hb2
        subst hl2
        exact iff_of_true rfl hlen

theorem C3_witness :
    (deleteBookmarkNode 1 "zzz" [exDangling] = some (false, [exDangling]) ∧
     (true = true ↔ ([] : List BookmarkNode).length ≠ [exFolderF].length)) :=
  C3_amended_delete_missing_id_returns_false 1 1 "zzz" "f" [exDangling] [exFolderF]
    true []
    (by decide) (by decide) (by decide) (by decide)

theorem grp_append (pre : List BookmarkNode) (n : BookmarkNode) (k : String) :
    ((pre ++ [n]).filter (fun x => decide (urlKey x = k))).map (fun x => x.id) =
      ((pre.filter (fun x => decide (urlKey x = k))).map (fun x => x.id)) ++
        (if urlKey n = k then [n.id] else []) := by
  rw [List.filter_append, List.map_append]
  congr 1
  by_cases h : urlKey n = k <;> simp [h]

theorem addToUrlMap_of_not_mem (m : List (String × List (Option String)))
    (k : String) (i : Option String) (hk : ∀ g ∈ m, g.1 ≠ k) :
    addToUrlMap m k i = m ++ [(k, [i])] := by
  induction m with
  | nil => rfl
  | cons hd rest ih =>
    obtain ⟨k2, ids⟩ := hd
    have hk2 : k2 ≠ k := hk (k2, ids) (List.mem_cons_self _ _)
    simp only [addToUrlMap, if_neg hk2, List.cons_append]
    rw [ih (fun g hg => hk g (List.mem_cons_of_mem _ hg))]

theorem addToUrlMap_keys_of_mem (m : List (String × List (Option String)))
    (k : String) (i : Option String) (hk : ∃ g ∈ m, g.1 = k) :
    (addToUrlMap m k i).map Prod.fst = m.map Prod.fst := by
  induction m with
  | nil => obtain ⟨g, hg, _⟩ := hk; cases hg
  | cons hd rest ih =>
    obtain ⟨k2, ids⟩ := hd
    by_cases hk2 : k2 = k
    · simp only [addToUrlMap, if_pos hk2, List.map_cons]
    · simp only [addToUrlMap, if_neg hk2, List.map_cons]
      congr 1
      apply ih
      obtain ⟨g, hg, hgk⟩ := hk
      rcases List.mem_cons.mp hg with hg | hg
      · subst hg
        exact absurd hgk hk2
      · exact ⟨g, hg, hgk⟩

theorem addToUrlMap_entries_of_mem (pre : List BookmarkNode) (n : BookmarkNode) :
    ∀ (m : List (String × List (Option String))),
    (∀ g ∈ m, g.2 = (pre.filter (fun x => decide (urlKey x = g.1))).map (fun x => x.id)) →
    ((m.map Prod.fst).Nodup) →
    (∃ g ∈ m, g.1 = urlKey n) →
    ∀ g2 ∈ addToUrlMap m (urlKey n) n.id,
      g2.2 = ((pre ++ [n]).filter (fun x => decide (urlKey x = g2.1))).map (fun x => x.id) := by
  intro m
  induction m with
  | nil =>
    intro _ _ hex
    obtain ⟨g, hg, _⟩ := hex
    cases hg
  | cons hd rest ih =>
    intro h1 h2 hex g2 hg2
    obtain ⟨k2, ids⟩ := hd
    by_cases hk2 : k2 = urlKey n
    · rw [show addToUrlMap ((k2, ids) :: rest) (urlKey n) n.id =
          (k2, ids ++ [n.id]) :: rest by simp [addToUrlMap, if_pos hk2]] at hg2
      rcases List.mem_cons.mp hg2 with hg2 | hg2
      · subst hg2
        rw [grp_append pre n k2, if_pos hk2.symm]
        have hids := h1 (k2, ids) (List.mem_cons_self _ _)
        rw [← hids]
      · have hne : urlKey n ≠ g2.1 := by
          have h2c : (k2 :: rest.map Prod.fst).Nodup := by
            rw [List.map_cons] at h2
            exact h2
          have hk2n : k2 ∉ rest.map Prod.fst := (List.nodup_cons.mp h2c).1
          intro he
          have hmem : g2.1 ∈ rest.map Prod.fst := List.mem_map_of_mem Prod.fst hg2
          rw [← hk2.trans he] at hmem
          exact hk2n hmem
        rw [grp_append pre n g2.1, if_neg hne, List.append_nil]
        exact h1 g2 (List.mem_cons_of_mem _ hg2)
    · rw [show addToUrlMap ((k2, ids) :: rest) (urlKey n) n.id =
          (k2, ids) :: addToUrlMap rest (urlKey n) n.id by
            simp [addToUrlMap, if_neg hk2]] at hg2
      rcases List.mem_cons.mp hg2 with hg2 | hg2
      · subst hg2
        have hne : urlKey n ≠ k2 := fun he => hk2 he.symm
        rw [grp_append pre n k2, if_neg hne, List.append_nil]
        exact h1 (k2, ids) (List.mem_cons_self _ _)
      · apply ih
        · exact fun g hg => h1 g (List.mem_cons_of_mem _ hg)
        · have h2c : (k2 :: rest.map Prod.fst).Nodup := by
            rw [List.map_cons] at h2
            exact h2
          exact (List.nodup_cons.mp h2c).2
        · obtain ⟨g, hg, hgk⟩ := hex
          rcases List.mem_cons.mp hg with hg | hg
          · subst hg
            exact absurd hgk hk2
          · exact ⟨g, hg, hgk⟩
        · exact hg2

theorem buildUrlMap_inv_step (pre : List BookmarkNode) (n : BookmarkNode)
    (m : List (String × List (Option String)))
    (h1 : ∀ g ∈ m, g.2 = (pre.filter (fun x => decide (urlKey x = g.1))).map (fun x => x.id))
    (h2 : (m.map Prod.fst).Nodup)
    (h3 : ∀ x ∈ pre, urlKey x ∈ m.map Prod.fst) :
    (∀ g ∈ addToUrlMap m (urlKey n) n.id,
       g.2 = ((pre ++ [n]).filter (fun x => decide (urlKey x = g.1))).map (fun x => x.id)) ∧
    ((addToUrlMap m (urlKey n) n.id).map Prod.fst).Nodup ∧
    (∀ x ∈ pre ++ [n], urlKey x ∈ (addToUrlMap m (urlKey n) n.id).map Prod.fst) := by
  by_cases hk : ∃ g ∈ m, g.1 = urlKey n
  · have hkeys := addToUrlMap_keys_of_mem m (urlKey n) n.id hk
    refine ⟨addToUrlMap_entries_of_mem pre n m h1 h2 hk, ?_, ?_⟩
    · rw [hkeys]; exact h2
    · intro x hx
      rw [hkeys]
      rcases List.mem_append.mp hx with hx | hx
      · exact h3 x hx
      · have hxn : x = n := by simpa using hx
        subst hxn
        obtain ⟨g, hg, hgk⟩ := hk
        rw [← hgk]
        exact List.mem_map_of_mem Prod.fst hg
  · push_neg at hk
    have heq := addToUrlMap_of_not_mem m (urlKey n) n.id hk
    rw [heq]
    have hnk : urlKey n ∉ m.map Prod.fst := by
      intro hmem
      obtain ⟨g, hg, hgk⟩ := List.mem_map.mp hmem
      exact hk g hg hgk
    have hpre_empty : pre.filter (fun x => decide (urlKey x = urlKey n)) = [] := by
      rw [List.filter_eq_nil_iff]
      intro a ha hdec
      have hkey : urlKey a = urlKey n := of_decide_eq_true hdec
      exact hnk (hkey ▸ h3 a ha)
    refine ⟨?_, ?_, ?_⟩
    · intro g hg
      rcases List.mem_append.mp hg with hg | hg
      · have hval := h1 g hg
        have hne : urlKey n ≠ g.1 := fun he => hk g hg he.symm
        rw [grp_append pre n g.1, if_neg hne, List.append_nil]
        exact hval
      · have hgn : g = (urlKey n, [n.id]) := by simpa using hg
        subst hgn
        rw [grp_append pre n (urlKey n), if_pos rfl, hpre_empty]
        rfl
    · rw [List.map_append]
      simp only [List.map_cons, List.map_nil]
      rw [List.nodup_append]
      refine ⟨h2, List.nodup_singleton _, ?_⟩
      intro a ha hb
      have hab : a = urlKey n := by simpa using hb
      subst hab
      exact hnk ha
    · intro x hx
      rw [List.map_append]
      rcases List.mem_append.mp hx with hx | hx
      · exact List.mem_append_left _ (h3 x hx)
      · have hxn : x = n := by simpa using hx
        subst hxn
        exact List.mem_append_right _ (by simp)

theorem buildUrlMap_inv_fold :
    ∀ (bs pre : List BookmarkNode) (m : List (String × List (Option String))),
    (∀ g ∈ m, g.2 = (pre.filter (fun x => decide (urlKey x = g.1))).map (fun x => x.id)) →
    ((m.map Prod.fst).Nodup) →
    (∀ x ∈ pre, urlKey x ∈ m.map Prod.fst) →
    ∀ g ∈ bs.foldl (fun m n => addToUrlMap m (urlKey n) n.id) m,
      g.2 = ((pre ++ bs).filter (fun x => decide (urlKey x = g.1))).map (fun x => x.id) := by
  intro bs
  induction bs with
  | nil =>
    intro pre m h1 _ _ g hg
    simpa using h1 g (by simpa using hg)
  | cons n rest ih =>
    intro pre m h1 h2 h3 g hg
    obtain ⟨s1, s2, s3⟩ := buildUrlMap_inv_step pre n m h1 h2 h3
    have hres := ih (pre ++ [n]) _ s1 s2 s3 g (by simpa using hg)
    simpa using hres

theorem buildUrlMap_spec (bs : List BookmarkNode) :
    ∀ g ∈ buildUrlMap bs,
      g.2 = (bs.filter (fun x => decide (urlKey x = g.1))).map (fun x => x.id) := by
  intro g hg
  have hres := buildUrlMap_inv_fold bs [] []
    (by intro g hg; cases hg) (by simp) (by intro x hx; cases hx)
    g (by simpa [buildUrlMap] using hg)
  simpa using hres

/-- C6 counterexample: a node with no url field and a node whose url is
the empty string are grouped together by findDuplicates (both map to the
empty-string key), although their url fields are not identical, and the
empty-string url occurs on only one of them. -/
theorem C6_counterexample_missing_and_empty_url_grouped :
    findDuplicateGroups [exNoUrl, exEmptyUrl] = [("", [some "a", some "b"])] ∧
    exNoUrl.url ≠ exEmptyUrl.url := by
  constructor
  · decide
  · decide

/-- C6 amended: duplicate detection groups nodes by the key url-or-empty
(bm.url with a missing url read as the empty string), case-sensitively
and without normalization: every reported group has more than one member
and holds exactly the ids, in order, of the stored nodes whose key
equals the group key; and no reported group carries the key of a node
whose key occurs exactly once in the list. -/
theorem C6_amended_grouping_by_url_or_empty (bs bs2 : List BookmarkNode)
    (g g2 : String × List (Option String)) (n : BookmarkNode)
    (hg : g ∈ findDuplicateGroups bs)
    (hg2 : g2 ∈ findDuplicateGroups bs2) (_hn : n ∈ bs2)
    (hsingle : (bs2.filter (fun x => decide (urlKey x = urlKey n))).length = 1) :
    (1 < g.2.length ∧
     g.2 = (bs.filter (fun x => decide (urlKey x = g.1))).map (fun x => x.id)) ∧
    g2.1 ≠ urlKey n := by
  have hmem : ∀ (cs : List BookmarkNode) (h : String × List (Option String)),
      h ∈ findDuplicateGroups cs → h ∈ buildUrlMap cs ∧ 1 < h.2.length := by
    intro cs h hh
    unfold findDuplicateGroups at hh
    have hsplit := List.mem_filter.mp hh
    exact ⟨hsplit.1, of_decide_eq_true hsplit.2⟩
  obtain ⟨hg_m, hg_len⟩ := hmem bs g hg
  obtain ⟨hg2_m, hg2_len⟩ := hmem bs2 g2 hg2
  refine ⟨⟨hg_len, buildUrlMap_spec bs g hg_m⟩, ?_⟩
  intro hkey
  have hspec := buildUrlMap_spec bs2 g2 hg2_m
  rw [hkey] at hspec
  have hlen1 : g2.2.length = 1 := by
    rw [hspec, List.length_map, hsingle]
  omega

theorem C6_witness :
    ((1 < (("", [some "a", some "b"]) :
        String × List (Option String)).2.length ∧
      (("", [some "a", some "b"]) : String × List (Option String)).2 =
        ([exNoUrl, exEmptyUrl,
            mkNode (some "x") (some NodeType.bookmark) none (some "https://x") none none].filter
          (fun x => decide (urlKey x =
            (("", [some "a", some "b"]) : String × List (Option String)).1))).map
          (fun x => x.id)) ∧
     (("", [some "a", some "b"]) : String × List (Option String)).1 ≠
       urlKey (mkNode (some "x") (some NodeType.bookmark) none (some "https://x") none none)) :=
  C6_amended_grouping_by_url_or_empty
    [exNoUrl, exEmptyUrl,
      mkNode (some "x") (some NodeType.bookmark) none (some "https://x") none none]
    [exNoUrl, exEmptyUrl,
      mkNode (some "x") (some NodeType.bookmark) none (some "https://x") none none]
    ("", [some "a", some "b"]) ("", [some "a", some "b"])
    (mkNode (some "x") (some NodeType.bookmark) none (some "https://x") none none)
    (by decide) (by decide) (by decide) (by decide)

theorem jsSetDedup_go_nodup (l : List String) :
    ∀ acc : List String, acc.Nodup →
      (l.foldl (fun acc x => if acc.contains x then acc else acc ++ [x]) acc).Nodup := by
  induction l with
  | nil => intro acc h; simpa using h
  | cons x xs ih =>
    intro acc h
    simp only [List.foldl_cons]
    by_cases hc : acc.contains x
    · rw [if_pos hc]
      exact ih acc h
    · rw [if_neg hc]
      apply ih
      rw [List.nodup_append]
      refine ⟨h, List.nodup_singleton _, ?_⟩
      intro a ha hb
      have hab : a = x := by simpa using hb
      subst hab
      exact hc (by simpa [List.elem_iff] using ha)

theorem jsSetDedup_nodup (l : List String) : (jsSetDedup l).Nodup :=
  jsSetDedup_go_nodup l [] List.nodup_nil

theorem jsSetDedup_go_mem (t : String) (l : List String) :
    ∀ acc : List String,
      (t ∈ l.foldl (fun acc x => if acc.contains x then acc else acc ++ [x]) acc ↔
        t ∈ acc ∨ t ∈ l) := by
  induction l with
  | nil => intro acc; simp
  | cons x xs ih =>
    intro acc
    simp only [List.foldl_cons]
    by_cases hc : acc.contains x
    · rw [if_pos hc]
      rw [ih acc]
      have hx : x ∈ acc := by simpa [List.elem_iff] using hc
      constructor
      · rintro (h | h)
        · exact Or.inl h
        · exact Or.inr (List.mem_cons_of_mem x h)
      · rintro (h | h)
        · exact Or.inl h
        · rcases List.mem_cons.mp h with rfl | h
          · exact Or.inl hx
          · exact Or.inr h
    · rw [if_neg hc]
      rw [ih (acc ++ [x])]
      constructor
      · rintro (h | h)
        · rcases List.mem_append.mp h with h | h
          · exact Or.inl h
          · exact Or.inr (List.mem_cons.mpr (Or.inl (by simpa using h)))
        · exact Or.inr (List.mem_cons_of_mem x h)
      · rintro (h | h)
        · exact Or.inl (List.mem_append_left _ h)
        · rcases List.mem_cons.mp h with rfl | h
          · exact Or.inl (List.mem_append_right _ (by simp))
          · exact Or.inr h

theorem jsSetDedup_mem (t : String) (l : List String) :
    t ∈ jsSetDedup l ↔ t ∈ l := by
  unfold jsSetDedup
  rw [jsSetDedup_go_mem t l []]
  simp

theorem handleMergeGroup_tags (mc md : Bool) (sb : List BookmarkNode)
    (ids : List (Option String)) (keep : Option String) (merged : BookmarkNode)
    (h : handleMergeGroup true mc md sb ids keep = some merged) :
    merged.tags =
      some (jsSetDedup ((resolveGroup sb ids).flatMap (fun b => b.tags.getD []))) := by
  simp only [handleMergeGroup] at h
  by_cases hlen : (resolveGroup sb ids).length < 2
  · rw [if_pos hlen] at h
    cases h
  · rw [if_neg hlen] at h
    cases hfind : (resolveGroup sb ids).find? (fun b => decide (b.id = keep)) with
    | none =>
      rw [hfind] at h
      cases h
    | some kept =>
      rw [hfind] at h
      repeat' split at h
      all_goals
        first
        | (injection h with h; subst h; rfl)
        | simp_all

/-- C7: merging a duplicate group with merge-tags enabled gives the kept
node a de-duplicated tag list whose members are exactly the tags carried
by the resolvable members of the group (set equality, order aside). -/
theorem C7_merge_tags_union (mc md : Bool) (sb : List BookmarkNode)
    (ids : List (Option String)) (keep : Option String) (merged : BookmarkNode)
    (t : String)
    (h : handleMergeGroup true mc md sb ids keep = some merged) :
    (merged.tags.getD []).Nodup ∧
    (t ∈ merged.tags.getD [] ↔ ∃ b ∈ resolveGroup sb ids, t ∈ b.tags.getD []) := by
  have htags := handleMergeGroup_tags mc md sb ids keep merged h
  rw [htags]
  simp only [Option.getD_some]
  refine ⟨jsSetDedup_nodup _, ?_⟩
  rw [jsSetDedup_mem]
  simp

theorem C7_witness :
    ((({ mkNode (some "a") (some NodeType.bookmark) none (some "https://ex.com") none
          (some ["x", "y"]) with tags := some ["x", "y", "z"] } :
        BookmarkNode).tags.getD []).Nodup ∧
     ("z" ∈ (({ mkNode (some "a") (some NodeType.bookmark) none (some "https://ex.com") none
          (some ["x", "y"]) with tags := some ["x", "y", "z"] } :
        BookmarkNode).tags.getD []) ↔
      ∃ b ∈ resolveGroup
          [mkNode (some "a") (some NodeType.bookmark) none (some "https://ex.com") none
            (some ["x", "y"]),
           mkNode (some "b") (some NodeType.bookmark) none (some "https://ex.com") none
            (some ["y", "z"])]
          [some "a", some "b"],
        "z" ∈ b.tags.getD [])) :=
  C7_merge_tags_union false false
    [mkNode (some "a") (some NodeType.bookmark) none (some "https://ex.com") none
      (some ["x", "y"]),
     mkNode (some "b") (some NodeType.bookmark) none (some "https://ex.com") none
      (some ["y", "z"])]
    [some "a", some "b"] (some "a")
    ({ mkNode (some "a") (some NodeType.bookmark) none (some "https://ex.com") none
        (some ["x", "y"]) with tags := some ["x", "y", "z"] })
    "z" (by decide)
